import Mathlib

/-!
# Verification of the BiotechOptimiser weighting and backtest engine

Shallow embedding of the portfolio-weighting, transaction-cost, calendar and
simulation code of the BiotechOptimiser repository (`src/utils.py`,
`src/backtest_engine.py`, `src/backtest.py`, `src/historical_patent_data.py`).

Modelling conventions:
* Python floats are modelled by exact rationals (`ℚ`); the spec's `± 1e-9`
  tolerances therefore become exact equalities.
* A pandas `Series` of portfolio weights is modelled as an association list
  `List (String × ℚ)`; a label missing from the index reads as `0`
  (matching `reindex(..., fill_value=0)`).
* Calendar dates from `datetime` are modelled by a `Date` structure of
  year/month/day; `datetime.replace` returning an invalid date (a Python
  `ValueError`) is modelled by `Option`.
* A Python function that can raise is modelled with an `Option` result,
  `none` meaning "raises".
-/

namespace Biotech

/-- Sum of the values of a weight series (`Series.sum`). -/
def sumW (w : List (String × ℚ)) : ℚ := (w.map Prod.snd).sum

/-- Reading a label from a weight series, `0` when absent
(`reindex(all_tickers, fill_value=0)` semantics). -/
def lookup0 (w : List (String × ℚ)) (t : String) : ℚ :=
  match w with
  | [] => 0
  | (k, v) :: rest => if t = k then v else lookup0 rest t

/-- `dict.get(key, default)` on a string-keyed rational table. -/
def lookupD (w : List (String × ℚ)) (t : String) (d : ℚ) : ℚ :=
  match w with
  | [] => d
  | (k, v) :: rest => if t = k then v else lookupD rest t d

/-- The clipping stage of `utils.apply_position_limits`:
`weights.clip(lower=min_weight, upper=max_weight)`. -/
def clipWeights (w : List (String × ℚ)) (min_weight max_weight : ℚ) :
    List (String × ℚ) :=
  w.map (fun p => (p.1, min max_weight (max min_weight p.2)))

/-- Dividing every entry of a series by the series' sum
(`weights / weights.sum()`). -/
def normalizeW (w : List (String × ℚ)) : List (String × ℚ) :=
  w.map (fun p => (p.1, p.2 / sumW w))

/-- `utils.apply_position_limits`: clip every entry into
`[min_weight, max_weight]`, then renormalize to sum 1 unless the clipped sum
is not positive. -/
def apply_position_limits (w : List (String × ℚ))
    (min_weight max_weight : ℚ) : List (String × ℚ) :=
  let clipped := clipWeights w min_weight max_weight
  if 0 < sumW clipped then normalizeW clipped else clipped

/-- The union of the two index label lists
(`old_weights.index.union(new_weights.index)`), as a duplicate-free list. -/
def unionKeys (old_weights new_weights : List (String × ℚ)) : List String :=
  (old_weights.map Prod.fst ++ new_weights.map Prod.fst).dedup

/-- Portfolio turnover: `np.abs(new_weights - old_weights).sum()` after both
series are reindexed on the union of their labels with missing entries `0`. -/
def turnover (old_weights new_weights : List (String × ℚ)) : ℚ :=
  ((unionKeys old_weights new_weights).map
    (fun t => |lookup0 new_weights t - lookup0 old_weights t|)).sum

/-- `utils.calculate_transaction_costs`: turnover times the cost rate. -/
def calculate_transaction_costs (old_weights new_weights : List (String × ℚ))
    (cost_rate : ℚ) : ℚ :=
  turnover old_weights new_weights * cost_rate

/-- `utils.safe_divide`: divide, returning `default` when the denominator is
zero. -/
def safe_divide (numerator denominator default : ℚ) : ℚ :=
  if denominator = 0 then default else numerator / denominator

/-- The specification's formula for the transaction cost, written with a
`Finset` sum over the union of the two ticker sets: `Σ |new_i − old_i| ×
cost_rate`, a missing ticker reading as weight `0`.  Stated independently of
`calculate_transaction_costs` so that the code can be proved to refine it. -/
def transaction_cost_spec (old_weights new_weights : List (String × ℚ))
    (cost_rate : ℚ) : ℚ :=
  ((old_weights.map Prod.fst).toFinset ∪ (new_weights.map Prod.fst).toFinset).sum
    (fun t => |lookup0 new_weights t - lookup0 old_weights t| * cost_rate)

/-! ## Risk-weighting engine (`backtest_engine.py`) -/

/-- A drug-info record as consumed by
`EnhancedPatentCliffBacktester.get_patent_cliff_weights`.  Dates are day
numbers (`Int`); `patent_expiry = none` models a missing or unparseable
expiry (`pd.Timestamp` raising), `launch_date = none` likewise.  `dtype`
is the record's `'type'` key (`"existing"` or `"new_launch"`); optional
dictionary keys read with `.get` are `Option` fields. -/
structure DrugInfo where
  ticker : String
  revenue_billions : ℚ
  patent_expiry : Option Int
  launch_date : Option Int
  peak_sales_estimate : Option ℚ
  status : Option String
  dtype : String

/-- `BACKTEST_RISK_PARAMETERS.get('expired_drug_weight', 0.0)`. -/
def expired_drug_weight : ℚ := 0

/-- The time-decay factor of `calculate_risk_weight` (its `if`/`elif` chain),
with the configured `cliff_horizon_years = 2.0` and
`risk_decay_factor = 0.5`. -/
def time_factor_fn (years_to_expiry : ℚ) : ℚ :=
  if years_to_expiry ≤ 1/4 then 1/20
  else if years_to_expiry ≤ 1/2 then 1/10
  else if years_to_expiry ≤ 1 then 1/5
  else if years_to_expiry ≤ 2 then
    max (1/5) (1 - ((2 - years_to_expiry) / 2) * (1/2))
  else 1

/-- The new-launch status multiplier table inside `calculate_risk_weight`
(`.get(drug_status, 1.1)`). -/
def newLaunchStatusTable (s : String) : ℚ :=
  if s = "blockbuster" then 13/10
  else if s = "growing_blockbuster" then 5/4
  else if s = "pandemic_blockbuster" then 11/10
  else if s = "expanding_blockbuster" then 6/5
  else if s = "oncology_blockbuster" then 23/20
  else 11/10

/-- The full status factor of `calculate_risk_weight`, including the
new-launch growth-potential and launch-recency adjustments.  The `except`
branch that resets `recency_factor` and `growth_potential` to `1.0` when the
launch date cannot be parsed is the `none` case of `launch_date`. -/
def status_factor_fn (drug_revenue : ℚ) (current_date : Int)
    (drug_status : String) (info : DrugInfo) : ℚ :=
  let base :=
    if info.dtype = "new_launch" then newLaunchStatusTable drug_status
    else if drug_status = "still_protected" then 6/5 else 1
  if info.dtype = "new_launch" then
    match info.launch_date with
    | none => base * 1 * 1
    | some launch_date =>
      let peak_sales := info.peak_sales_estimate.getD 5
      let current_revenue := max (1/10) drug_revenue
      let growth_potential := min (3/2) (peak_sales / current_revenue * (1/5))
      let days_since_launch := current_date - launch_date
      let recency_factor : ℚ :=
        if days_since_launch < 365 then 11/10
        else if days_since_launch < 730 then 1
        else 9/10
      base * growth_potential * recency_factor
  else base

/-- `EnhancedPatentCliffBacktester.calculate_risk_weight`. -/
def calculate_risk_weight (drug_revenue years_to_expiry : ℚ)
    (current_date : Int) (drug_status : String) (info : DrugInfo) : ℚ :=
  if years_to_expiry ≤ 0 ∨ drug_status = "expired_in_period" then
    expired_drug_weight
  else
    let time_factor := time_factor_fn years_to_expiry
    let revenue_factor := min 1 (drug_revenue / 10)
    let status_factor := status_factor_fn drug_revenue current_date drug_status info
    max (1/1000) (time_factor * revenue_factor * status_factor)

/-- The status multiplier table inside `calculate_new_launch_momentum`. -/
def momentumStatusTable (s : String) : ℚ :=
  if s = "blockbuster" then 13/10
  else if s = "growing_blockbuster" then 6/5
  else if s = "pandemic_blockbuster" then 11/10
  else if s = "expanding_blockbuster" then 5/4
  else if s = "oncology_blockbuster" then 23/20
  else 1

/-- `EnhancedPatentCliffBacktester.calculate_new_launch_momentum`.

The source computes `growth_potential ** 0.5` in floating point; every value
that computation can produce is a rational number, so the square root is
passed in as an arbitrary function `sqrtFn : ℚ → ℚ` and theorems quantify
over it.  A negative base makes the Python `**` return a complex number and
the subsequent `min` raise `TypeError`, landing in the `except` branch that
returns `1.0`; a missing/unparseable launch date lands there as well. -/
def calculate_new_launch_momentum (sqrtFn : ℚ → ℚ) (info : DrugInfo)
    (current_date : Int) : ℚ :=
  if info.dtype ≠ "new_launch" then 1
  else
    match info.launch_date with
    | none => 1
    | some launch_date =>
      let days_since_launch := current_date - launch_date
      let time_momentum : ℚ :=
        if days_since_launch < 365 then
          1/2 + ((days_since_launch : ℚ) / 365) * (1/2)
        else if days_since_launch < 730 then
          1 + (((730 - days_since_launch : Int) : ℚ) / 365) * (3/10)
        else 4/5
      let peak_sales := info.peak_sales_estimate.getD 5
      let current_revenue := info.revenue_billions
      let growth_potential := min 2 (peak_sales / max (1/10) current_revenue)
      if growth_potential < 0 then 1
      else
        let status_multiplier := momentumStatusTable (info.status.getD "standard")
        min 2 (time_momentum * min (3/2) (sqrtFn growth_potential) * status_multiplier)

/-- Inserting / accumulating one weight into the `weights` dict of
`get_patent_cliff_weights` (`weights[ticker] += weight` with
insertion-ordered keys). -/
def addWeight (acc : List (String × ℚ)) (t : String) (w : ℚ) :
    List (String × ℚ) :=
  if (acc.map Prod.fst).contains t then
    acc.map (fun p => if p.1 = t then (p.1, p.2 + w) else p)
  else acc ++ [(t, w)]

/-- The boosted weight one drug contributes in the loop body of
`get_patent_cliff_weights`: the risk weight times, for a new launch, the
momentum and the configured `new_launch_boost = 1.2`. -/
def gpcwWeight (sqrtFn : ℚ → ℚ) (current_date : Int) (info : DrugInfo)
    (patent_expiry : Int) : ℚ :=
  let years_to_expiry : ℚ :=
    ((patent_expiry - current_date : Int) : ℚ) / (36525/100)
  let weight := calculate_risk_weight info.revenue_billions
    years_to_expiry current_date (info.status.getD "unknown") info
  if info.dtype = "new_launch" then
    weight * calculate_new_launch_momentum sqrtFn info current_date * (6/5)
  else weight

/-- One iteration of the per-drug loop of `get_patent_cliff_weights`: parse
the patent expiry (skipping the drug when that fails, the `except:
continue`), compute the boosted weight, and record it only when it is
positive (`if weight > 0`). -/
def gpcwStep (sqrtFn : ℚ → ℚ) (current_date : Int)
    (acc : List (String × ℚ)) (nd : String × DrugInfo) :
    List (String × ℚ) :=
  match nd.2.patent_expiry with
  | none => acc
  | some patent_expiry =>
    let weight := gpcwWeight sqrtFn current_date nd.2 patent_expiry
    if 0 < weight then addWeight acc nd.2.ticker weight else acc

/-- The per-drug accumulation loop of `get_patent_cliff_weights`. -/
def gpcw_raw (sqrtFn : ℚ → ℚ) (available_drugs : List (String × DrugInfo))
    (current_date : Int) : List (String × ℚ) :=
  available_drugs.foldl (gpcwStep sqrtFn current_date) []

/-- `EnhancedPatentCliffBacktester.get_patent_cliff_weights`: accumulate
per-ticker weights, then — only when the series is nonempty with positive
sum — normalize and apply the configured position limits
(`min_weight = 0.02`, `max_weight = 0.15`). -/
def get_patent_cliff_weights (sqrtFn : ℚ → ℚ)
    (available_drugs : List (String × DrugInfo)) (current_date : Int) :
    List (String × ℚ) :=
  let weights := gpcw_raw sqrtFn available_drugs current_date
  if weights ≠ [] ∧ 0 < sumW weights then
    apply_position_limits (normalizeW weights) (1/50) (3/20)
  else weights

/-! ## Historical weighting (`historical_patent_data.py` and `backtest.py`) -/

/-- One row of the patent-cliff DataFrame consumed by
`calculate_portfolio_weights_historical`. -/
structure CliffRow where
  ticker : String
  revenue_billions : ℚ
  years_to_expiry : ℚ
deriving DecidableEq

/-- A target-drug record; only the ticker matters to the fallback paths. -/
structure TargetDrug where
  ticker : String

/-- `list(set([info['ticker'] for info in target_drugs.values()]))`. -/
def fallbackTickers (target_drugs : List TargetDrug) : List String :=
  (target_drugs.map TargetDrug.ticker).dedup

/-- The equal-weight series `pd.Series(1.0 / len(tickers), index=tickers)`. -/
def equalWeightSeries (tickers : List String) : List (String × ℚ) :=
  tickers.map (fun t => (t, 1 / (tickers.length : ℚ)))

/-- The shared per-row weight factors of both
`calculate_portfolio_weights_historical` variants.  `total = 0` reflects the
IEEE float behaviour of the source: with a nonnegative drug revenue the
division produces `+inf` (or `nan` for `0/0`), `min(0.9, ·)` keeps `0.9`,
and the risk factor collapses to `0.1`; theorems about this path therefore
assume nonnegative revenues (the data model guarantees revenue ≥ 0). -/
def histRowWeight (company_revenues : List (String × ℚ)) (r : CliffRow) : ℚ :=
  let total_revenue := lookupD company_revenues r.ticker 50
  let revenue_risk_percent := r.revenue_billions / total_revenue * 100
  let time_factor := max (1/10) (min 1 (r.years_to_expiry / 5))
  let risk_factor :=
    if total_revenue = 0 then 1/10
    else max (1/10) (1 - min (9/10) (revenue_risk_percent / 100))
  time_factor * risk_factor

/-- `HistoricalPatentCliffAnalyzer.calculate_portfolio_weights_historical`
from `historical_patent_data.py`.  Its equal-weight fallback divides by
`len(tickers)` without a guard, so an empty ticker set raises
`ZeroDivisionError`: the result is `none`.  `cliff_data = none` models
`cliff_data is None`, `some []` models an empty DataFrame. -/
def cpwh_hist (cliff_data : Option (List CliffRow))
    (target_drugs : List TargetDrug)
    (company_revenues : List (String × ℚ)) :
    Option (List (String × ℚ)) :=
  let fallback : Option (List (String × ℚ)) :=
    if fallbackTickers target_drugs = [] then none
    else some (equalWeightSeries (fallbackTickers target_drugs))
  match cliff_data with
  | none => fallback
  | some rows =>
    if rows = [] then fallback
    else
      let weights := rows.map (fun r => (r.ticker, histRowWeight company_revenues r))
      if weights ≠ [] ∧ 0 < sumW weights then some (normalizeW weights)
      else fallback

/-- `HistoricalPatentCliffAnalyzer.calculate_portfolio_weights_historical`
from `backtest.py`.  This variant multiplies in the diversification factor
`max(0.5, 1 - RISK_PARAMETERS['diversification_penalty'])` with penalty
`0.1`, post-processes through `apply_position_limits` with its default
limits `(0, 0.90)`, and guards its equal-weight fallback
(`... if tickers else 0`), returning an empty series for an empty ticker
set. -/
def cpwh_backtest (cliff_data : Option (List CliffRow))
    (target_drugs : List TargetDrug)
    (company_revenues : List (String × ℚ)) : List (String × ℚ) :=
  let fallback : List (String × ℚ) :=
    if fallbackTickers target_drugs = [] then []
    else equalWeightSeries (fallbackTickers target_drugs)
  match cliff_data with
  | none => fallback
  | some rows =>
    if rows = [] then fallback
    else
      let diversification_factor : ℚ := max (1/2) (1 - 1/10)
      let weights := rows.map (fun r =>
        (r.ticker, histRowWeight company_revenues r * diversification_factor))
      if weights ≠ [] ∧ 0 < sumW weights then
        apply_position_limits weights 0 (9/10)
      else fallback

/-! ## Calendar (`utils.get_trading_dates`) -/

/-- A `datetime` date. -/
structure Date where
  year : Nat
  month : Nat
  day : Nat
deriving DecidableEq

/-- Gregorian leap year. -/
def isLeap (y : Nat) : Prop := y % 4 = 0 ∧ (y % 100 ≠ 0 ∨ y % 400 = 0)

instance (y : Nat) : Decidable (isLeap y) := by unfold isLeap; infer_instance

/-- Days in a month. -/
def daysInMonth (y m : Nat) : Nat :=
  if m = 2 then (if isLeap y then 29 else 28)
  else if m = 4 ∨ m = 6 ∨ m = 9 ∨ m = 11 then 30
  else 31

/-- A representable `datetime` date. -/
def validDate (d : Date) : Prop :=
  1 ≤ d.month ∧ d.month ≤ 12 ∧ 1 ≤ d.day ∧ d.day ≤ daysInMonth d.year d.month

instance (d : Date) : Decidable (validDate d) := by unfold validDate; infer_instance

/-- `datetime` comparison (lexicographic year, month, day). -/
def dateLe (a b : Date) : Bool :=
  a.year < b.year ||
    (a.year = b.year &&
      (a.month < b.month || (a.month = b.month && a.day ≤ b.day)))

/-- Month index used as a termination measure for the scheduling loop. -/
def dateKey (d : Date) : Nat := d.year * 12 + d.month

/-- `current.replace(year=y, month=m)` keeping the day: `none` models the
`ValueError` Python raises when the day does not exist in the target
month. -/
def dateReplace (d : Date) (y m : Nat) : Option Date :=
  if d.day ≤ daysInMonth y m then some ⟨y, m, d.day⟩ else none

/-- One advance of the `get_trading_dates` loop for the given frequency
(the `replace` calls of the three branches). -/
def nextRebalanceDate (frequency : String) (c : Date) : Option Date :=
  if frequency = "monthly" then
    if c.month = 12 then dateReplace c (c.year + 1) 1
    else dateReplace c c.year (c.month + 1)
  else if frequency = "quarterly" then
    if c.month ≤ 3 then dateReplace c c.year 6
    else if c.month ≤ 6 then dateReplace c c.year 9
    else if c.month ≤ 9 then dateReplace c c.year 12
    else dateReplace c (c.year + 1) 3
  else dateReplace c (c.year + 1) c.month

/-- The `while current <= end` loop of `get_trading_dates`, driven by
explicit fuel (each iteration strictly increases `dateKey`, so
`dateKey end + 1 - dateKey start` iterations always suffice).  `none`
models a `ValueError` escaping the loop. -/
def tradingDatesLoop : Nat → Date → Date → String → Option (List Date)
  | 0, current, «end», _ =>
      if dateLe current «end» then none else some []
  | fuel + 1, current, «end», frequency =>
      if dateLe current «end» then
        match nextRebalanceDate frequency current with
        | none => none
        | some c' =>
          Option.map (current :: ·) (tradingDatesLoop fuel c' «end» frequency)
      else some []

/-- `utils.get_trading_dates` on already-parsed dates.  A frequency other
than the three recognized ones yields the empty list (no branch of the
`if`/`elif` chain runs). -/
def get_trading_dates (start_date end_date : Date) (frequency : String) :
    Option (List Date) :=
  if frequency = "monthly" ∨ frequency = "quarterly" ∨ frequency = "annually" then
    tradingDatesLoop (dateKey end_date + 1 - dateKey start_date)
      start_date end_date frequency
  else some []

/-! ## Simulation loop bodies (`backtest.py` / `backtest_engine.py`)

Both backtests walk day by day; each day's body is embedded as a state
transition.  Price data enters through `dailyRet`, the per-ticker daily
return `(price_today − price_yesterday) / price_yesterday` with missing
values contributing `0` (`fillna(0)` in `backtest.py`, the `continue` /
`pd.notna` guards in `backtest_engine.py`); the weight-engine call is the
function argument `calcW` / `targetW`. -/

/-- Portfolio state of `PatentCliffBacktester.run_simulation`. -/
structure SimState where
  current_capital : ℚ
  current_weights : List (String × ℚ)
deriving DecidableEq

/-- `target_weights.reindex(available_tickers, fill_value=0)`. -/
def reindexFill0 (tickers : List String) (w : List (String × ℚ)) :
    List (String × ℚ) :=
  tickers.map (fun t => (t, lookup0 w t))

/-- The target-weight post-processing of `run_simulation`: reindex to the
available tickers, renormalize when the sum is positive, otherwise fall
back to equal weights. -/
def simTargetWeights (available_tickers : List String)
    (raw : List (String × ℚ)) : List (String × ℚ) :=
  let target := reindexFill0 available_tickers raw
  if 0 < sumW target then normalizeW target
  else equalWeightSeries available_tickers

/-- `(current_weights * daily_returns).sum()`. -/
def portfolioReturn (weights : List (String × ℚ)) (dailyRet : String → ℚ) : ℚ :=
  (weights.map (fun p => p.2 * dailyRet p.1)).sum

/-- One day of `PatentCliffBacktester.run_simulation` (`backtest.py`).
Rebalancing triggers within ±2 days of a scheduled date or when the held
weights are empty; transaction cost is charged — `capital *= (1 − cost)` —
only when the previous weights are nonempty, before the day's return
multiplies the capital. -/
def simStep (transaction_cost : ℚ) (available_tickers : List String)
    (rebalance_dates : List Int) (calcW : Int → List (String × ℚ))
    (dailyRet : String → ℚ) (date : Int) (i : Nat) (st : SimState) :
    SimState :=
  let is_rebalance_date :=
    rebalance_dates.any (fun rd => (date - rd).natAbs ≤ 2) ||
      st.current_weights.isEmpty
  let st1 :=
    if is_rebalance_date then
      let target_weights := simTargetWeights available_tickers (calcW date)
      if st.current_weights.isEmpty then
        { st with current_weights := target_weights }
      else
        { current_capital := st.current_capital *
            (1 - calculate_transaction_costs st.current_weights target_weights
              transaction_cost),
          current_weights := target_weights }
    else st
  if ¬ st1.current_weights.isEmpty ∧ i ≠ 0 then
    { st1 with current_capital := st1.current_capital *
        (1 + portfolioReturn st1.current_weights dailyRet) }
  else st1

/-- Portfolio state of `EnhancedPatentCliffBacktester.run_backtest`. -/
structure EngineState where
  portfolio_value : ℚ
  current_weights : List (String × ℚ)
  total_transaction_costs : ℚ
deriving DecidableEq

/-- One day of `EnhancedPatentCliffBacktester.run_backtest`
(`backtest_engine.py`).  On a rebalance the transaction cost is only
accumulated into `total_transaction_costs` (`+= txn_cost *
portfolio_value`); the portfolio value itself is not reduced. -/
def engineStep (transaction_cost : ℚ) (rebalance_dates : List Int)
    (targetW : Int → List (String × ℚ)) (dailyRet : String → ℚ)
    (date : Int) (i : Nat) (st : EngineState) : EngineState :=
  let is_rebalance_date :=
    rebalance_dates.any (fun rd => (date - rd).natAbs < 3)
  let st1 :=
    if is_rebalance_date || i = 0 then
      let new_weights := targetW date
      let txn_cost := calculate_transaction_costs st.current_weights
        new_weights transaction_cost
      { portfolio_value := st.portfolio_value,
        current_weights := new_weights,
        total_transaction_costs :=
          st.total_transaction_costs + txn_cost * st.portfolio_value }
    else st
  if ¬ st1.current_weights.isEmpty ∧ i ≠ 0 then
    { st1 with portfolio_value := st1.portfolio_value *
        (1 + portfolioReturn st1.current_weights dailyRet) }
  else st1

/-! ## Launch success scoring (`utils.calculate_launch_success_score`) -/

/-- The drug-info dictionary as read by `calculate_launch_success_score`;
all keys are read with `.get` except `launch_date`, whose absence (or
unparseability) raises inside the `try` block. -/
structure LaunchInfo where
  revenue_billions : Option ℚ
  peak_sales_estimate : Option ℚ
  status : Option String
  launch_date : Option Int

/-- The `status_multipliers` table of `calculate_launch_success_score`. -/
def launchStatusMultipliers (s : String) : ℚ :=
  if s = "blockbuster" then 7/5
  else if s = "growing_blockbuster" then 13/10
  else if s = "expanding_blockbuster" then 27/20
  else if s = "oncology_blockbuster" then 6/5
  else if s = "pandemic_blockbuster" then 9/10
  else 1

/-- `utils.calculate_launch_success_score`.  A failure inside the `try`
block — here, a missing/unparseable launch date — resets the score to the
neutral `1.0`; the result is always clamped to `[0.1, 2.0]`.  A month is
`30.44` days. -/
def calculate_launch_success_score (info : LaunchInfo)
    (current_date : Int) : ℚ :=
  let score :=
    match info.launch_date with
    | none => 1
    | some launch_date =>
      let current_revenue := info.revenue_billions.getD 0
      let peak_estimate := info.peak_sales_estimate.getD 5
      let s1 : ℚ :=
        if 0 < peak_estimate then
          1 * (1/2 + min (3/2) (current_revenue / peak_estimate))
        else 1
      let s2 := s1 * launchStatusMultipliers (info.status.getD "standard")
      let months_since_launch : ℚ :=
        ((current_date - launch_date : Int) : ℚ) / (761/25)
      let time_factor : ℚ :=
        if months_since_launch < 6 then
          7/10 + (months_since_launch / 6) * (3/10)
        else if months_since_launch ≤ 24 then 1
        else max (3/5) (1 - ((months_since_launch - 24) / 36) * (2/5))
      let s3 := s2 * time_factor
      if 10 ≤ current_revenue then s3 * (11/10)
      else if 5 ≤ current_revenue then s3 * (21/20)
      else s3
  max (1/10) (min 2 score)

/-! ## Helper lemmas about weight-series sums -/

theorem sumW_nil : sumW [] = 0 := rfl

theorem sumW_cons (p : String × ℚ) (w : List (String × ℚ)) :
    sumW (p :: w) = p.2 + sumW w := by
  simp [sumW]

theorem sumW_nonneg {w : List (String × ℚ)} (h : ∀ p ∈ w, 0 ≤ p.2) :
    0 ≤ sumW w := by
  induction w with
  | nil => simp [sumW]
  | cons p rest ih =>
    have h1 : 0 ≤ p.2 := h p (by simp)
    have h2 : 0 ≤ sumW rest := ih (fun q hq => h q (List.mem_cons_of_mem _ hq))
    rw [sumW_cons]
    linarith

theorem sumW_pos {w : List (String × ℚ)} (hne : w ≠ [])
    (h : ∀ p ∈ w, 0 < p.2) : 0 < sumW w := by
  cases w with
  | nil => exact absurd rfl hne
  | cons p rest =>
    have h1 : 0 < p.2 := h p (by simp)
    have h2 : 0 ≤ sumW rest :=
      sumW_nonneg (fun q hq => le_of_lt (h q (List.mem_cons_of_mem _ hq)))
    rw [sumW_cons]
    linarith

theorem sumW_map_div (w : List (String × ℚ)) (s : ℚ) :
    sumW (w.map (fun p => (p.1, p.2 / s))) = sumW w / s := by
  induction w with
  | nil => simp [sumW]
  | cons p rest ih =>
    simp only [List.map_cons, sumW_cons] at *
    rw [ih, add_div]

theorem sumW_normalizeW {w : List (String × ℚ)} (h : sumW w ≠ 0) :
    sumW (normalizeW w) = 1 := by
  unfold normalizeW
  rw [sumW_map_div, div_self h]

theorem sumW_equalWeightSeries {l : List String} (hl : l ≠ []) :
    sumW (equalWeightSeries l) = 1 := by
  have hlen : (l.length : ℚ) ≠ 0 := by
    have h0 : l.length ≠ 0 := by simpa [List.length_eq_zero] using hl
    exact_mod_cast h0
  unfold equalWeightSeries sumW
  rw [List.map_map]
  have hfun : (Prod.snd ∘ fun t : String => (t, 1 / (l.length : ℚ)))
      = Function.const String (1 / (l.length : ℚ)) := rfl
  rw [hfun, List.map_const, List.sum_replicate, nsmul_eq_mul, mul_one_div,
    div_self hlen]

/-! ## Helper lemmas about clipping and position limits -/

theorem clipWeights_mem_bounds {w : List (String × ℚ)} {mn mx : ℚ}
    (hmm : mn ≤ mx) : ∀ p ∈ clipWeights w mn mx, mn ≤ p.2 ∧ p.2 ≤ mx := by
  intro p hp
  simp only [clipWeights, List.mem_map] at hp
  obtain ⟨q, _, rfl⟩ := hp
  exact ⟨le_min hmm (le_max_left _ _), min_le_left _ _⟩

theorem clipWeights_pos {w : List (String × ℚ)} {mn mx : ℚ} (hmx : 0 < mx)
    (h : ∀ p ∈ w, 0 < max mn p.2) : ∀ p ∈ clipWeights w mn mx, 0 < p.2 := by
  intro p hp
  simp only [clipWeights, List.mem_map] at hp
  obtain ⟨q, hq, rfl⟩ := hp
  exact lt_min hmx (h q hq)

theorem clipWeights_ne_nil {w : List (String × ℚ)} {mn mx : ℚ}
    (hne : w ≠ []) : clipWeights w mn mx ≠ [] := by
  simpa [clipWeights] using hne

theorem apply_position_limits_sumW {w : List (String × ℚ)} {mn mx : ℚ}
    (h : 0 < sumW (clipWeights w mn mx)) :
    sumW (apply_position_limits w mn mx) = 1 := by
  unfold apply_position_limits
  rw [if_pos h]
  exact sumW_normalizeW (ne_of_gt h)

theorem apply_position_limits_of_pos {w : List (String × ℚ)} {mn mx : ℚ}
    (h : 0 < sumW (clipWeights w mn mx)) :
    apply_position_limits w mn mx = normalizeW (clipWeights w mn mx) := by
  unfold apply_position_limits
  rw [if_pos h]

theorem apply_position_limits_of_nonpos {w : List (String × ℚ)} {mn mx : ℚ}
    (h : ¬ 0 < sumW (clipWeights w mn mx)) :
    apply_position_limits w mn mx = clipWeights w mn mx := by
  unfold apply_position_limits
  rw [if_neg h]

/-! ## Helper lemmas about lookups and turnover -/

theorem lookup0_nonneg {w : List (String × ℚ)} (h : ∀ p ∈ w, 0 ≤ p.2)
    (t : String) : 0 ≤ lookup0 w t := by
  induction w with
  | nil => simp [lookup0]
  | cons p rest ih =>
    rw [lookup0]
    by_cases ht : t = p.1
    · rw [if_pos ht]
      exact h p (by simp)
    · rw [if_neg ht]
      exact ih (fun q hq => h q (List.mem_cons_of_mem _ hq))

theorem lookup0_eq_zero_of_not_mem {w : List (String × ℚ)} {t : String}
    (h : t ∉ w.map Prod.fst) : lookup0 w t = 0 := by
  induction w with
  | nil => rfl
  | cons p rest ih =>
    simp only [List.map_cons, List.mem_cons, not_or] at h
    rw [lookup0, if_neg h.1]
    exact ih h.2

/-- Summing the `lookup0` values over any duplicate-free superset of a
duplicate-free index gives the series sum. -/
theorem sum_lookup0_toFinset :
    ∀ (w : List (String × ℚ)) (u : Finset String),
      (w.map Prod.fst).Nodup → (∀ k ∈ w.map Prod.fst, k ∈ u) →
      (u.sum (fun t => lookup0 w t)) = sumW w := by
  intro w
  induction w with
  | nil => intro u _ _; simp [lookup0, sumW]
  | cons p rest ih =>
    intro u hnd hsub
    obtain ⟨k, v⟩ := p
    simp only [List.map_cons, List.nodup_cons] at hnd
    have hk : k ∈ u := hsub k (by simp)
    have h1 : lookup0 ((k, v) :: rest) k = v := by
      rw [lookup0, if_pos rfl]
    have h2 : (u.erase k).sum (fun t => lookup0 ((k, v) :: rest) t)
        = (u.erase k).sum (fun t => lookup0 rest t) := by
      apply Finset.sum_congr rfl
      intro t ht
      have htk : t ≠ k := (Finset.mem_erase.mp ht).1
      rw [lookup0, if_neg htk]
    have hsub' : ∀ k' ∈ rest.map Prod.fst, k' ∈ u.erase k := by
      intro k' hk'
      refine Finset.mem_erase.mpr ⟨?_, hsub k' (List.mem_cons_of_mem _ hk')⟩
      intro hkk
      exact hnd.1 (hkk ▸ hk')
    calc u.sum (fun t => lookup0 ((k, v) :: rest) t)
        = lookup0 ((k, v) :: rest) k +
            (u.erase k).sum (fun t => lookup0 ((k, v) :: rest) t) :=
          (Finset.add_sum_erase u (fun t => lookup0 ((k, v) :: rest) t) hk).symm
      _ = v + (u.erase k).sum (fun t => lookup0 rest t) := by rw [h1, h2]
      _ = v + sumW rest := by rw [ih (u.erase k) hnd.2 hsub']
      _ = sumW ((k, v) :: rest) := (sumW_cons (k, v) rest).symm

/-- The list-based turnover of the source equals a `Finset` sum over the
union of the two ticker sets. -/
theorem turnover_eq_finset_sum (old_weights new_weights : List (String × ℚ)) :
    turnover old_weights new_weights =
      ((old_weights.map Prod.fst).toFinset ∪ (new_weights.map Prod.fst).toFinset).sum
        (fun t => |lookup0 new_weights t - lookup0 old_weights t|) := by
  unfold turnover unionKeys
  rw [← List.sum_toFinset _ (List.nodup_dedup _)]
  congr 1
  ext a
  simp [List.mem_dedup]

/-! ## Helper lemmas about the weighting engine -/

theorem addWeight_pos {acc : List (String × ℚ)} {t : String} {wt : ℚ}
    (hacc : ∀ p ∈ acc, 0 < p.2) (hw : 0 < wt) :
    ∀ p ∈ addWeight acc t wt, 0 < p.2 := by
  intro p hp
  unfold addWeight at hp
  by_cases hc : (acc.map Prod.fst).contains t
  · rw [if_pos hc] at hp
    simp only [List.mem_map] at hp
    obtain ⟨q, hq, rfl⟩ := hp
    by_cases h1 : q.1 = t
    · rw [if_pos h1]
      have := hacc q hq
      dsimp only
      linarith
    · rw [if_neg h1]
      exact hacc q hq
  · rw [if_neg hc] at hp
    rcases List.mem_append.mp hp with h | h
    · exact hacc p h
    · simp only [List.mem_singleton] at h
      rw [h]
      exact hw

theorem gpcwStep_pos (sqrtFn : ℚ → ℚ) (current_date : Int)
    {acc : List (String × ℚ)} (nd : String × DrugInfo)
    (hacc : ∀ p ∈ acc, 0 < p.2) :
    ∀ p ∈ gpcwStep sqrtFn current_date acc nd, 0 < p.2 := by
  unfold gpcwStep
  cases nd.2.patent_expiry with
  | none => exact hacc
  | some e =>
    dsimp only
    split
    · exact addWeight_pos hacc (by assumption)
    · exact hacc

theorem gpcw_raw_pos (sqrtFn : ℚ → ℚ)
    (available_drugs : List (String × DrugInfo)) (current_date : Int) :
    ∀ p ∈ gpcw_raw sqrtFn available_drugs current_date, 0 < p.2 := by
  unfold gpcw_raw
  have main : ∀ (l : List (String × DrugInfo)) (acc : List (String × ℚ)),
      (∀ p ∈ acc, 0 < p.2) →
      ∀ p ∈ l.foldl (gpcwStep sqrtFn current_date) acc, 0 < p.2 := by
    intro l
    induction l with
    | nil => intro acc hacc; simpa using hacc
    | cons nd rest ih =>
      intro acc hacc
      rw [List.foldl_cons]
      exact ih _ (gpcwStep_pos sqrtFn current_date nd hacc)
  exact main available_drugs [] (by simp)

theorem histRowWeight_pos (company_revenues : List (String × ℚ))
    (r : CliffRow) : 0 < histRowWeight company_revenues r := by
  unfold histRowWeight
  apply mul_pos
  · exact lt_of_lt_of_le (by norm_num) (le_max_left _ _)
  · dsimp only
    split
    · norm_num
    · exact lt_of_lt_of_le (by norm_num) (le_max_left _ _)

theorem normalizeW_ne_nil {w : List (String × ℚ)} (h : w ≠ []) :
    normalizeW w ≠ [] := by
  simpa [normalizeW] using h

theorem simTargetWeights_ne_nil {available_tickers : List String}
    (h : available_tickers ≠ []) (raw : List (String × ℚ)) :
    simTargetWeights available_tickers raw ≠ [] := by
  simp only [simTargetWeights, reindexFill0, equalWeightSeries]
  split
  · exact normalizeW_ne_nil (by simpa using h)
  · simpa using h

/-! ## Helper lemmas about the rebalance calendar -/

theorem daysInMonth_ge_28 (y m : Nat) : 28 ≤ daysInMonth y m := by
  unfold daysInMonth
  split
  · split <;> omega
  · split <;> omega

theorem dateLe_dateKey {a b : Date} (ha : a.month ≤ 12) (hb : 1 ≤ b.month)
    (h : dateLe a b = true) : dateKey a ≤ dateKey b := by
  unfold dateLe at h
  simp only [Bool.or_eq_true, Bool.and_eq_true, decide_eq_true_eq] at h
  unfold dateKey
  rcases h with h | ⟨h1, h⟩
  · omega
  · rcases h with h2 | ⟨h2, _⟩ <;> omega

theorem nextRebalanceDate_ok (frequency : String) {c : Date}
    (hv : validDate c) (hd : c.day ≤ 28) :
    ∃ c', nextRebalanceDate frequency c = some c' ∧ c'.day = c.day ∧
      validDate c' ∧ dateKey c < dateKey c' := by
  obtain ⟨hm1, hm2, hd1, _⟩ := hv
  have hrep : ∀ y m, 1 ≤ m → m ≤ 12 →
      dateKey c < y * 12 + m →
      ∃ c', dateReplace c y m = some c' ∧ c'.day = c.day ∧
        validDate c' ∧ dateKey c < dateKey c' := by
    intro y m h1 h2 h3
    refine ⟨⟨y, m, c.day⟩, ?_, rfl, ⟨h1, h2, hd1, ?_⟩, ?_⟩
    · unfold dateReplace
      rw [if_pos (le_trans hd (daysInMonth_ge_28 y m))]
    · exact le_trans hd (daysInMonth_ge_28 y m)
    · exact h3
  unfold nextRebalanceDate
  unfold dateKey at *
  by_cases hmo : frequency = "monthly"
  · rw [if_pos hmo]
    by_cases h12 : c.month = 12
    · rw [if_pos h12]
      exact hrep (c.year + 1) 1 (by omega) (by omega) (by omega)
    · rw [if_neg h12]
      exact hrep c.year (c.month + 1) (by omega) (by omega) (by omega)
  · rw [if_neg hmo]
    by_cases hq : frequency = "quarterly"
    · rw [if_pos hq]
      by_cases h3 : c.month ≤ 3
      · rw [if_pos h3]
        exact hrep c.year 6 (by omega) (by omega) (by omega)
      · rw [if_neg h3]
        by_cases h6 : c.month ≤ 6
        · rw [if_pos h6]
          exact hrep c.year 9 (by omega) (by omega) (by omega)
        · rw [if_neg h6]
          by_cases h9 : c.month ≤ 9
          · rw [if_pos h9]
            exact hrep c.year 12 (by omega) (by omega) (by omega)
          · rw [if_neg h9]
            exact hrep (c.year + 1) 3 (by omega) (by omega) (by omega)
    · rw [if_neg hq]
      exact hrep (c.year + 1) c.month (by omega) (by omega) (by omega)

theorem tradingDatesLoop_total :
    ∀ (fuel : Nat) (c e : Date) (frequency : String), validDate c →
      validDate e → c.day ≤ 28 → dateKey e + 1 - dateKey c ≤ fuel →
      ∃ l, tradingDatesLoop fuel c e frequency = some l ∧
        (l = [] ↔ dateLe c e = false) := by
  intro fuel
  induction fuel with
  | zero =>
    intro c e frequency hv hve _ hfuel
    have hle : dateLe c e = false := by
      cases hle : dateLe c e with
      | false => rfl
      | true =>
        have := dateLe_dateKey hv.2.1 hve.1 hle
        omega
    refine ⟨[], ?_, by simp [hle]⟩
    unfold tradingDatesLoop
    rw [hle]
    simp
  | succ n ih =>
    intro c e frequency hv hve hd hfuel
    cases hle : dateLe c e with
    | false =>
      refine ⟨[], ?_, by simp [hle]⟩
      unfold tradingDatesLoop
      rw [hle]
      simp
    | true =>
      obtain ⟨c', hnext, hday, hv', hkey⟩ := nextRebalanceDate_ok frequency hv hd
      have hck := dateLe_dateKey hv.2.1 hve.1 hle
      obtain ⟨l', hl', _⟩ := ih c' e frequency hv' hve (hday ▸ hd) (by omega)
      refine ⟨c :: l', ?_, by simp [hle]⟩
      unfold tradingDatesLoop
      simp only [hle, if_true, hnext, hl', Option.map_some']

/-! ## Claim C2 -/

/-- C2: in `calculate_risk_weight`, the time factor is the piecewise step
function of `years_to_expiry` with values `0.05` on `(0, 0.25]`, `0.1` on
`(0.25, 0.5]`, `0.2` on `(0.5, 1]` and `1.0` beyond the 2-year cliff
horizon; a drug with `years_to_expiry ≤ 0` or expired status receives the
configured floor weight (`expired_drug_weight = 0.0`); and every
non-expired drug's combined raw weight is `max(0.001, time_factor ×
revenue_factor × status_factor)`, hence at least `0.001`. -/
theorem C2_risk_weight_time_factor (drug_revenue years_to_expiry : ℚ)
    (current_date : Int) (drug_status : String) (info : DrugInfo) :
    ((years_to_expiry ≤ 0 ∨ drug_status = "expired_in_period") →
      calculate_risk_weight drug_revenue years_to_expiry current_date
        drug_status info = expired_drug_weight) ∧
    expired_drug_weight = 0 ∧
    (0 < years_to_expiry → years_to_expiry ≤ 1/4 →
      time_factor_fn years_to_expiry = 1/20) ∧
    (1/4 < years_to_expiry → years_to_expiry ≤ 1/2 →
      time_factor_fn years_to_expiry = 1/10) ∧
    (1/2 < years_to_expiry → years_to_expiry ≤ 1 →
      time_factor_fn years_to_expiry = 1/5) ∧
    (2 < years_to_expiry → time_factor_fn years_to_expiry = 1) ∧
    (¬ (years_to_expiry ≤ 0 ∨ drug_status = "expired_in_period") →
      calculate_risk_weight drug_revenue years_to_expiry current_date
          drug_status info
        = max (1/1000) (time_factor_fn years_to_expiry *
            min 1 (drug_revenue / 10) *
            status_factor_fn drug_revenue current_date drug_status info) ∧
      1/1000 ≤ calculate_risk_weight drug_revenue years_to_expiry
        current_date drug_status info) := by
  refine ⟨?_, rfl, ?_, ?_, ?_, ?_, ?_⟩
  · intro h
    unfold calculate_risk_weight
    rw [if_pos h]
  · intro _ h2
    unfold time_factor_fn
    rw [if_pos h2]
  · intro h1 h2
    unfold time_factor_fn
    rw [if_neg (by linarith), if_pos h2]
  · intro h1 h2
    unfold time_factor_fn
    rw [if_neg (by linarith), if_neg (by linarith), if_pos h2]
  · intro h1
    unfold time_factor_fn
    rw [if_neg (by linarith), if_neg (by linarith), if_neg (by linarith),
      if_neg (by linarith)]
  · intro h
    unfold calculate_risk_weight
    rw [if_neg h]
    exact ⟨rfl, le_max_left _ _⟩

/-- Witness for C2 at concrete inputs: an already-expired drug gets the
floor weight, `time_factor_fn` is `1` ten years out, and the non-expired
raw weight is at least `0.001`. -/
theorem C2_witness :
    ((-1 : ℚ) ≤ 0 ∨ "unknown" = "expired_in_period") ∧
    calculate_risk_weight 10 (-1) 0 "unknown"
        ⟨"T", 10, none, none, none, none, "existing"⟩ = expired_drug_weight ∧
    (0 : ℚ) < 1/8 ∧ (1/8 : ℚ) ≤ 1/4 ∧ time_factor_fn (1/8) = 1/20 ∧
    ¬ ((10 : ℚ) ≤ 0 ∨ "still_protected" = "expired_in_period") ∧
    1/1000 ≤ calculate_risk_weight 10 10 0 "still_protected"
      ⟨"T", 10, none, none, none, none, "existing"⟩ := by
  have h1 := C2_risk_weight_time_factor 10 (-1) 0 "unknown"
    ⟨"T", 10, none, none, none, none, "existing"⟩
  have h2 := C2_risk_weight_time_factor 10 10 0 "still_protected"
    ⟨"T", 10, none, none, none, none, "existing"⟩
  have h3 := C2_risk_weight_time_factor 10 (1/8) 0 "unknown"
    ⟨"T", 10, none, none, none, none, "existing"⟩
  have hne : ¬ ((10 : ℚ) ≤ 0 ∨ "still_protected" = "expired_in_period") := by
    simp
  exact ⟨Or.inl (by norm_num), h1.1 (Or.inl (by norm_num)), by norm_num,
    by norm_num, h3.2.2.1 (by norm_num) (by norm_num), hne, (h2.2.2.2.2.2.2 hne).2⟩

/-! ## Claim C5 -/

/-- C5 counterexample: with `min_weight = 0`, `max_weight = 0.15` (so `0 ≤
min_weight ≤ max_weight`) and the weight vector `{A: 0.5, B: 0.5}`, the
single-pass renormalization of `apply_position_limits` pushes both entries
back to `0.5 > 0.15`, violating the claimed bound. -/
theorem C5_counterexample :
    (0 : ℚ) ≤ 0 ∧ (0 : ℚ) ≤ 3/20 ∧
    apply_position_limits [("A", 1/2), ("B", 1/2)] 0 (3/20)
      = [("A", 1/2), ("B", 1/2)] ∧
    ¬ ((1 : ℚ)/2 ≤ 3/20) := by
  refine ⟨le_refl 0, by norm_num, ?_, by norm_num⟩
  simp [apply_position_limits, clipWeights, normalizeW, sumW]
  norm_num [min_def, max_def]

/-- C5 (amended): for `0 ≤ min_weight ≤ max_weight`, every entry of the
intermediate clipped vector lies within `[min_weight, max_weight]`; the
vector `apply_position_limits` returns is that clipped vector divided by
its sum when the sum is positive (which can push entries outside the
bounds), and the clipped vector itself otherwise. -/
theorem C5_position_limits_amended (w : List (String × ℚ)) (mn mx : ℚ)
    (h0 : 0 ≤ mn) (hmm : mn ≤ mx) :
    (∀ p ∈ clipWeights w mn mx, mn ≤ p.2 ∧ p.2 ≤ mx) ∧
    (0 < sumW (clipWeights w mn mx) →
      apply_position_limits w mn mx = normalizeW (clipWeights w mn mx)) ∧
    (¬ 0 < sumW (clipWeights w mn mx) →
      apply_position_limits w mn mx = clipWeights w mn mx) :=
  ⟨clipWeights_mem_bounds hmm, fun h => apply_position_limits_of_pos h,
    fun h => apply_position_limits_of_nonpos h⟩

/-- Witness for C5 (amended) at a concrete input. -/
theorem C5_witness :
    (0 : ℚ) ≤ 0 ∧ (0 : ℚ) ≤ 3/20 ∧
    (∀ p ∈ clipWeights [("A", (1 : ℚ)/2)] 0 (3/20), 0 ≤ p.2 ∧ p.2 ≤ 3/20) :=
  ⟨le_refl 0, by norm_num,
    (C5_position_limits_amended [("A", (1 : ℚ)/2)] 0 (3/20) (le_refl 0)
      (by norm_num)).1⟩

/-! ## Claim C7 -/

/-- C7 counterexample: on the valid calendar dates 2020-01-31 and
2020-12-31 with frequency `monthly`, `get_trading_dates` raises
`ValueError` (modelled as `none`): the first loop iteration executes
`current.replace(month=2)`, and February 31 does not exist. -/
theorem C7_counterexample :
    validDate ⟨2020, 1, 31⟩ ∧ validDate ⟨2020, 12, 31⟩ ∧
    get_trading_dates ⟨2020, 1, 31⟩ ⟨2020, 12, 31⟩ "monthly" = none :=
  ⟨by decide, by decide, by decide⟩

/-- C7 (amended): for every pair of valid calendar dates whose start day of
month is at most 28 and every frequency in {monthly, quarterly, annually},
`get_trading_dates` never raises, and its result is empty iff
`start_date > end_date`.  (For a start day of 29–31 the `replace` calls can
construct an invalid date and raise, as the counterexample shows.) -/
theorem C7_trading_dates_amended (start_date end_date : Date)
    (frequency : String) (hs : validDate start_date)
    (he : validDate end_date) (hday : start_date.day ≤ 28)
    (hf : frequency = "monthly" ∨ frequency = "quarterly" ∨
      frequency = "annually") :
    ∃ l, get_trading_dates start_date end_date frequency = some l ∧
      (l = [] ↔ dateLe start_date end_date = false) := by
  unfold get_trading_dates
  rw [if_pos hf]
  exact tradingDatesLoop_total _ start_date end_date frequency hs he hday
    (le_refl _)

/-- Witness for C7 (amended) at concrete dates. -/
theorem C7_witness :
    validDate ⟨2020, 1, 1⟩ ∧ validDate ⟨2020, 12, 31⟩ ∧
    (⟨2020, 1, 1⟩ : Date).day ≤ 28 ∧
    ∃ l, get_trading_dates ⟨2020, 1, 1⟩ ⟨2020, 12, 31⟩ "monthly" = some l ∧
      (l = [] ↔ dateLe ⟨2020, 1, 1⟩ ⟨2020, 12, 31⟩ = false) :=
  ⟨by decide, by decide, by decide,
    C7_trading_dates_amended ⟨2020, 1, 1⟩ ⟨2020, 12, 31⟩ "monthly"
      (by decide) (by decide) (by decide) (Or.inl rfl)⟩

/-! ## Claim C8 -/

/-- C8 counterexample: the equal-weight fallback of
`historical_patent_data.calculate_portfolio_weights_historical` divides
`1.0` by `len(tickers)` without a guard; with no cliff data and an empty
target-drug set it raises `ZeroDivisionError` (modelled as `none`). -/
theorem C8_counterexample : cpwh_hist none [] [] = none := rfl

/-- C8 (amended): `safe_divide` substitutes its default when the
denominator is zero, and the `backtest.py` equal-weight fallback is guarded
(an empty ticker set yields an empty series); but the
`historical_patent_data.py` equal-weight fallback divides by the number of
tickers unguarded and raises `ZeroDivisionError` on an empty target set. -/
theorem C8_division_guards_amended :
    (∀ numerator default : ℚ, safe_divide numerator 0 default = default) ∧
    cpwh_backtest none [] [] = [] ∧
    cpwh_hist none [] [] = none := by
  refine ⟨?_, rfl, rfl⟩
  intro n d
  simp [safe_divide]

/-! ## Claim C10 -/

/-- C10: `calculate_launch_success_score` never raises and always returns a
value in `[0.1, 2.0]`; a failure inside the scoring computation (a
missing/unparseable launch date) resets the score to the neutral `1.0`,
and the final result is clamped to those bounds.  (Totality of the Lean
function is the never-raises part.) -/
theorem C10_launch_score_bounds (info : LaunchInfo) (current_date : Int) :
    (1/10 ≤ calculate_launch_success_score info current_date ∧
      calculate_launch_success_score info current_date ≤ 2) ∧
    (∀ r p s, calculate_launch_success_score ⟨r, p, s, none⟩
      current_date = 1) := by
  constructor
  · constructor
    · exact le_max_left _ _
    · exact max_le (by norm_num) (min_le_left _ _)
  · intro r p s
    simp only [calculate_launch_success_score]
    norm_num [min_def, max_def]

/-! ## Claims C1 and C6: entry-point characterizations -/

theorem gpcw_empty_or_sum_one (sqrtFn : ℚ → ℚ)
    (available_drugs : List (String × DrugInfo)) (current_date : Int) :
    get_patent_cliff_weights sqrtFn available_drugs current_date = [] ∨
    sumW (get_patent_cliff_weights sqrtFn available_drugs current_date) = 1 := by
  unfold get_patent_cliff_weights
  by_cases h : gpcw_raw sqrtFn available_drugs current_date ≠ [] ∧
      0 < sumW (gpcw_raw sqrtFn available_drugs current_date)
  · rw [if_pos h]
    right
    apply apply_position_limits_sumW
    apply sumW_pos (clipWeights_ne_nil (normalizeW_ne_nil h.1))
    apply clipWeights_pos (by norm_num : (0 : ℚ) < 3/20)
    intro p _
    exact lt_of_lt_of_le (by norm_num) (le_max_left (1/50) p.2)
  · rw [if_neg h]
    left
    by_cases hne : gpcw_raw sqrtFn available_drugs current_date = []
    · exact hne
    · exact absurd ⟨hne, sumW_pos hne (gpcw_raw_pos sqrtFn available_drugs
        current_date)⟩ h

theorem cpwh_fallback_some {target_drugs : List TargetDrug} {w : List (String × ℚ)}
    (hw : (if fallbackTickers target_drugs = [] then none
      else some (equalWeightSeries (fallbackTickers target_drugs))) = some w) :
    w = [] ∨ sumW w = 1 := by
  by_cases ht : fallbackTickers target_drugs = []
  · rw [if_pos ht] at hw
    cases hw
  · rw [if_neg ht] at hw
    injection hw with hw
    subst hw
    exact Or.inr (sumW_equalWeightSeries ht)

theorem cpwh_hist_some_sum_one (cliff_data : Option (List CliffRow))
    (target_drugs : List TargetDrug) (company_revenues : List (String × ℚ))
    (w : List (String × ℚ))
    (hw : cpwh_hist cliff_data target_drugs company_revenues = some w) :
    w = [] ∨ sumW w = 1 := by
  cases cliff_data with
  | none => exact cpwh_fallback_some hw
  | some rows =>
    simp only [cpwh_hist] at hw
    by_cases hr : rows = []
    · rw [if_pos hr] at hw
      exact cpwh_fallback_some hw
    · rw [if_neg hr] at hw
      set weights := rows.map
        (fun r => (r.ticker, histRowWeight company_revenues r)) with hwdef
      by_cases hc : weights ≠ [] ∧ 0 < sumW weights
      · rw [if_pos hc] at hw
        injection hw with hw
        subst hw
        exact Or.inr (sumW_normalizeW (ne_of_gt hc.2))
      · rw [if_neg hc] at hw
        exact cpwh_fallback_some hw

theorem cpwh_backtest_empty_or_sum_one (cliff_data : Option (List CliffRow))
    (target_drugs : List TargetDrug)
    (company_revenues : List (String × ℚ)) :
    cpwh_backtest cliff_data target_drugs company_revenues = [] ∨
    sumW (cpwh_backtest cliff_data target_drugs company_revenues) = 1 := by
  have hfb : (if fallbackTickers target_drugs = [] then ([] : List (String × ℚ))
      else equalWeightSeries (fallbackTickers target_drugs)) = [] ∨
      sumW (if fallbackTickers target_drugs = [] then ([] : List (String × ℚ))
        else equalWeightSeries (fallbackTickers target_drugs)) = 1 := by
    by_cases ht : fallbackTickers target_drugs = []
    · rw [if_pos ht]
      exact Or.inl rfl
    · rw [if_neg ht]
      exact Or.inr (sumW_equalWeightSeries ht)
  cases cliff_data with
  | none =>
    simpa only [cpwh_backtest] using hfb
  | some rows =>
    simp only [cpwh_backtest]
    by_cases hr : rows = []
    · rw [if_pos hr]
      exact hfb
    · rw [if_neg hr]
      set weights := rows.map (fun r =>
        (r.ticker, histRowWeight company_revenues r * max (1/2) (1 - 1/10)))
        with hwdef
      by_cases hc : weights ≠ [] ∧ 0 < sumW weights
      · rw [if_pos hc]
        right
        apply apply_position_limits_sumW
        apply sumW_pos (clipWeights_ne_nil hc.1)
        apply clipWeights_pos (by norm_num : (0 : ℚ) < 9/10)
        intro p hp
        rw [hwdef] at hp
        simp only [List.mem_map] at hp
        obtain ⟨r, _, rfl⟩ := hp
        refine lt_of_lt_of_le ?_ (le_max_right 0 _)
        exact mul_pos (histRowWeight_pos company_revenues r)
          (lt_of_lt_of_le (by norm_num) (le_max_left (1/2) (1 - 1/10)))
      · rw [if_neg hc]
        exact hfb

/-- C1: every weight vector returned by the weighting engine —
`get_patent_cliff_weights`, both `calculate_portfolio_weights_historical`
variants, and the `apply_position_limits` post-processing they use — is
either empty or sums exactly to 1 (hence within `1e-9` of `1.0`), for every
input drug-record set and as-of date.  For `cpwh_hist` the statement is
conditional on the call returning at all (`some w`); the empty-ticker
`ZeroDivisionError` path returns nothing. -/
theorem C1_weights_sum_to_one :
    (∀ (sqrtFn : ℚ → ℚ) (available_drugs : List (String × DrugInfo))
        (current_date : Int),
      get_patent_cliff_weights sqrtFn available_drugs current_date = [] ∨
      sumW (get_patent_cliff_weights sqrtFn available_drugs current_date) = 1) ∧
    (∀ cliff_data target_drugs company_revenues w,
      cpwh_hist cliff_data target_drugs company_revenues = some w →
      w = [] ∨ sumW w = 1) ∧
    (∀ cliff_data target_drugs company_revenues,
      cpwh_backtest cliff_data target_drugs company_revenues = [] ∨
      sumW (cpwh_backtest cliff_data target_drugs company_revenues) = 1) ∧
    (∀ (w : List (String × ℚ)) (mn mx : ℚ),
      0 < sumW (clipWeights w mn mx) →
      sumW (apply_position_limits w mn mx) = 1) :=
  ⟨gpcw_empty_or_sum_one, cpwh_hist_some_sum_one,
    cpwh_backtest_empty_or_sum_one, fun _ _ _ h => apply_position_limits_sumW h⟩

/-- Witness for C1 at concrete inputs: a one-row cliff table normalizes to
the unit vector, and a clipped singleton renormalizes to sum 1. -/
theorem C1_witness :
    cpwh_hist (some [⟨"JNJ", 10, 3⟩]) [] [("JNJ", 50)] = some [("JNJ", 1)] ∧
    ([("JNJ", (1 : ℚ))] = [] ∨ sumW [("JNJ", (1 : ℚ))] = 1) ∧
    (0 : ℚ) < sumW (clipWeights [("A", (1 : ℚ))] (1/50) (3/20)) ∧
    sumW (apply_position_limits [("A", (1 : ℚ))] (1/50) (3/20)) = 1 := by
  have heq : cpwh_hist (some [⟨"JNJ", 10, 3⟩]) [] [("JNJ", 50)]
      = some [("JNJ", 1)] := by
    simp [cpwh_hist, histRowWeight, lookupD, normalizeW, sumW]
    norm_num [min_def, max_def]
  have hpos : (0 : ℚ) < sumW (clipWeights [("A", (1 : ℚ))] (1/50) (3/20)) := by
    norm_num [clipWeights, sumW, min_def, max_def]
  exact ⟨heq, C1_weights_sum_to_one.2.1 _ _ _ _ heq, hpos,
    C1_weights_sum_to_one.2.2.2 _ _ _ hpos⟩

/-- C6 counterexample: with one available drug whose status is
`expired_in_period` (risk weight 0, so the accumulated series is empty),
`get_patent_cliff_weights` returns the empty vector rather than the
equal-weight vector over the caller's tickers (`{BMY: 1.0}`). -/
theorem C6_counterexample :
    get_patent_cliff_weights (fun q => q)
      [("PLAVIX", ⟨"BMY", 68/10, some 100, none, none,
        some "expired_in_period", "existing"⟩)] 0 = [] ∧
    equalWeightSeries ["BMY"] = [("BMY", 1)] := by
  constructor
  · simp [get_patent_cliff_weights, gpcw_raw, gpcwStep, gpcwWeight,
      calculate_risk_weight, expired_drug_weight, sumW]
  · norm_num [equalWeightSeries]

/-- C6 (amended): both `calculate_portfolio_weights_historical` variants
fall back to an equal-weight vector over the caller's tickers when the
cliff data is missing or empty, but `get_patent_cliff_weights` has no such
fallback: when its accumulated weight series is empty it returns the empty
vector unchanged. -/
theorem C6_fallback_amended :
    (∀ (target_drugs : List TargetDrug)
        (company_revenues : List (String × ℚ)),
      fallbackTickers target_drugs ≠ [] →
      cpwh_hist none target_drugs company_revenues
          = some (equalWeightSeries (fallbackTickers target_drugs)) ∧
      cpwh_hist (some []) target_drugs company_revenues
          = some (equalWeightSeries (fallbackTickers target_drugs)) ∧
      cpwh_backtest none target_drugs company_revenues
          = equalWeightSeries (fallbackTickers target_drugs) ∧
      cpwh_backtest (some []) target_drugs company_revenues
          = equalWeightSeries (fallbackTickers target_drugs)) ∧
    (∀ (sqrtFn : ℚ → ℚ) (available_drugs : List (String × DrugInfo))
        (current_date : Int),
      gpcw_raw sqrtFn available_drugs current_date = [] →
      get_patent_cliff_weights sqrtFn available_drugs current_date = []) := by
  constructor
  · intro target_drugs company_revenues ht
    refine ⟨?_, ?_, ?_, ?_⟩ <;> simp [cpwh_hist, cpwh_backtest, ht]
  · intro sqrtFn available_drugs current_date h
    unfold get_patent_cliff_weights
    rw [h]
    simp

/-- Witness for C6 (amended) at concrete inputs. -/
theorem C6_witness :
    fallbackTickers [⟨"JNJ"⟩, ⟨"PFE"⟩] ≠ [] ∧
    cpwh_hist none [⟨"JNJ"⟩, ⟨"PFE"⟩] []
      = some (equalWeightSeries (fallbackTickers [⟨"JNJ"⟩, ⟨"PFE"⟩])) ∧
    gpcw_raw (fun q => q) [] 0 = [] ∧
    get_patent_cliff_weights (fun q => q) [] 0 = [] := by
  have ht : fallbackTickers [⟨"JNJ"⟩, ⟨"PFE"⟩] ≠ [] := by decide
  exact ⟨ht, (C6_fallback_amended.1 _ _ ht).1, rfl,
    C6_fallback_amended.2 (fun q => q) [] 0 rfl⟩

/-! ## Claim C3 -/

/-- C3: `calculate_transaction_costs` returns `Σ |new_i − old_i| ×
cost_rate` over the union of both ticker sets, a ticker missing from one
vector reading as weight 0 (the refinement of `transaction_cost_spec`);
consequently it is 0 when the two vectors are equal, symmetric in its two
arguments, and monotonically non-decreasing in total turnover. -/
theorem C3_transaction_cost_model :
    (∀ (old_weights new_weights : List (String × ℚ)) (cost_rate : ℚ),
      calculate_transaction_costs old_weights new_weights cost_rate
        = transaction_cost_spec old_weights new_weights cost_rate) ∧
    (∀ (w : List (String × ℚ)) (cost_rate : ℚ),
      calculate_transaction_costs w w cost_rate = 0) ∧
    (∀ (old_weights new_weights : List (String × ℚ)) (cost_rate : ℚ),
      calculate_transaction_costs old_weights new_weights cost_rate
        = calculate_transaction_costs new_weights old_weights cost_rate) ∧
    (∀ (o₁ n₁ o₂ n₂ : List (String × ℚ)) (cost_rate : ℚ), 0 ≤ cost_rate →
      turnover o₁ n₁ ≤ turnover o₂ n₂ →
      calculate_transaction_costs o₁ n₁ cost_rate ≤
        calculate_transaction_costs o₂ n₂ cost_rate) := by
  refine ⟨?_, ?_, ?_, ?_⟩
  · intro old_weights new_weights cost_rate
    unfold calculate_transaction_costs transaction_cost_spec
    rw [turnover_eq_finset_sum, Finset.sum_mul]
  · intro w cost_rate
    unfold calculate_transaction_costs
    have h0 : turnover w w = 0 := by
      unfold turnover
      apply List.sum_eq_zero
      intro x hx
      simp only [List.mem_map] at hx
      obtain ⟨t, _, rfl⟩ := hx
      simp
    rw [h0, zero_mul]
  · intro old_weights new_weights cost_rate
    unfold calculate_transaction_costs turnover unionKeys
    congr 1
    have hfun : (fun t => |lookup0 new_weights t - lookup0 old_weights t|)
        = (fun t => |lookup0 old_weights t - lookup0 new_weights t|) := by
      funext t
      exact abs_sub_comm _ _
    rw [hfun]
    exact ((List.perm_append_comm.dedup).map _).sum_eq
  · intro o₁ n₁ o₂ n₂ cost_rate hrate hmono
    exact mul_le_mul_of_nonneg_right hmono hrate

/-- Witness for C3's monotonicity conjunct at concrete inputs: turnover 0
(no trade) costs at most as much as turnover 2 (full switch). -/
theorem C3_witness :
    (0 : ℚ) ≤ 1/1000 ∧
    turnover [("A", (1 : ℚ))] [("A", (1 : ℚ))]
      ≤ turnover [("A", (1 : ℚ))] [("B", (1 : ℚ))] ∧
    calculate_transaction_costs [("A", (1 : ℚ))] [("A", (1 : ℚ))] (1/1000)
      ≤ calculate_transaction_costs [("A", (1 : ℚ))] [("B", (1 : ℚ))]
        (1/1000) := by
  have hmono : turnover [("A", (1 : ℚ))] [("A", (1 : ℚ))]
      ≤ turnover [("A", (1 : ℚ))] [("B", (1 : ℚ))] := by
    simp [turnover, unionKeys, lookup0, List.dedup]
  exact ⟨by norm_num, hmono,
    C3_transaction_cost_model.2.2.2 _ _ _ _ (1/1000) (by norm_num) hmono⟩

/-! ## Claim C9 -/

/-- C9: for weight vectors with duplicate-free tickers and non-negative
entries each summing to at most 1, and any `cost_rate ≥ 0`,
`calculate_transaction_costs` returns a value in `[0, 2 × cost_rate]`. -/
theorem C9_cost_in_unit_range (old_weights new_weights : List (String × ℚ))
    (cost_rate : ℚ)
    (hold_nd : (old_weights.map Prod.fst).Nodup)
    (hnew_nd : (new_weights.map Prod.fst).Nodup)
    (hold_nn : ∀ p ∈ old_weights, 0 ≤ p.2)
    (hnew_nn : ∀ p ∈ new_weights, 0 ≤ p.2)
    (hold_sum : sumW old_weights ≤ 1) (hnew_sum : sumW new_weights ≤ 1)
    (hrate : 0 ≤ cost_rate) :
    0 ≤ calculate_transaction_costs old_weights new_weights cost_rate ∧
    calculate_transaction_costs old_weights new_weights cost_rate
      ≤ 2 * cost_rate := by
  set u := (old_weights.map Prod.fst).toFinset ∪
    (new_weights.map Prod.fst).toFinset with hu
  have htu : turnover old_weights new_weights
      = u.sum (fun t => |lookup0 new_weights t - lookup0 old_weights t|) :=
    turnover_eq_finset_sum _ _
  have ht0 : 0 ≤ turnover old_weights new_weights := by
    rw [htu]
    exact Finset.sum_nonneg (fun t _ => abs_nonneg _)
  have hole : u.sum (fun t => lookup0 old_weights t) = sumW old_weights :=
    sum_lookup0_toFinset _ u hold_nd
      (fun k hk => Finset.mem_union_left _ (List.mem_toFinset.mpr hk))
  have hnewe : u.sum (fun t => lookup0 new_weights t) = sumW new_weights :=
    sum_lookup0_toFinset _ u hnew_nd
      (fun k hk => Finset.mem_union_right _ (List.mem_toFinset.mpr hk))
  have ht2 : turnover old_weights new_weights ≤ 2 := by
    rw [htu]
    have hb : ∀ t ∈ u, |lookup0 new_weights t - lookup0 old_weights t|
        ≤ lookup0 new_weights t + lookup0 old_weights t := by
      intro t _
      have h1 := lookup0_nonneg hnew_nn t
      have h2 := lookup0_nonneg hold_nn t
      rw [abs_sub_le_iff]
      constructor <;> linarith
    calc u.sum (fun t => |lookup0 new_weights t - lookup0 old_weights t|)
        ≤ u.sum (fun t => lookup0 new_weights t + lookup0 old_weights t) :=
          Finset.sum_le_sum hb
      _ = sumW new_weights + sumW old_weights := by
          rw [Finset.sum_add_distrib, hole, hnewe]
      _ ≤ 2 := by linarith
  exact ⟨mul_nonneg ht0 hrate, mul_le_mul_of_nonneg_right ht2 hrate⟩

/-- Witness for C9 at concrete inputs. -/
theorem C9_witness :
    ((([("A", (1 : ℚ)/2)] : List (String × ℚ)).map Prod.fst).Nodup ∧
      (([("B", (1 : ℚ)/3)] : List (String × ℚ)).map Prod.fst).Nodup ∧
      (∀ p ∈ [("A", (1 : ℚ)/2)], 0 ≤ p.2) ∧
      (∀ p ∈ [("B", (1 : ℚ)/3)], 0 ≤ p.2) ∧
      sumW [("A", (1 : ℚ)/2)] ≤ 1 ∧ sumW [("B", (1 : ℚ)/3)] ≤ 1 ∧
      (0 : ℚ) ≤ 1/100) ∧
    0 ≤ calculate_transaction_costs [("A", (1 : ℚ)/2)] [("B", (1 : ℚ)/3)]
      (1/100) ∧
    calculate_transaction_costs [("A", (1 : ℚ)/2)] [("B", (1 : ℚ)/3)] (1/100)
      ≤ 2 * (1/100) := by
  have h1 : (([("A", (1 : ℚ)/2)] : List (String × ℚ)).map Prod.fst).Nodup := by
    simp
  have h2 : (([("B", (1 : ℚ)/3)] : List (String × ℚ)).map Prod.fst).Nodup := by
    simp
  have h3 : ∀ p ∈ [("A", (1 : ℚ)/2)], 0 ≤ p.2 := by
    intro p hp
    rw [List.mem_singleton] at hp
    subst hp
    norm_num
  have h4 : ∀ p ∈ [("B", (1 : ℚ)/3)], 0 ≤ p.2 := by
    intro p hp
    rw [List.mem_singleton] at hp
    subst hp
    norm_num
  have h5 : sumW [("A", (1 : ℚ)/2)] ≤ 1 := by norm_num [sumW]
  have h6 : sumW [("B", (1 : ℚ)/3)] ≤ 1 := by norm_num [sumW]
  have h7 : (0 : ℚ) ≤ 1/100 := by norm_num
  exact ⟨⟨h1, h2, h3, h4, h5, h6, h7⟩,
    C9_cost_in_unit_range _ _ _ h1 h2 h3 h4 h5 h6 h7⟩

/-! ## Claim C4 -/

/-- C4 counterexample: in `run_backtest` (`backtest_engine.py`), at a
rebalance with previous weights `{PFE: 1}` and target `{JNJ: 1}` the
transaction cost is `0.002`, yet the portfolio value stays `100000`
instead of `100000 × (1 − 0.002)`: the cost is never deducted from
capital. -/
theorem C4_counterexample :
    calculate_transaction_costs [("PFE", 1)] [("JNJ", 1)] (1/1000)
      = 1/500 ∧
    (engineStep (1/1000) [5] (fun _ => [("JNJ", 1)]) (fun _ => 0) 5 1
        ⟨100000, [("PFE", 1)], 0⟩).portfolio_value = 100000 ∧
    (100000 : ℚ) ≠ 100000 * (1 - 1/500) := by
  refine ⟨?_, ?_, by norm_num⟩
  · simp [calculate_transaction_costs, turnover, unionKeys, lookup0,
      List.dedup]
    norm_num
  · simp [engineStep, calculate_transaction_costs, turnover, unionKeys,
      lookup0, portfolioReturn, List.dedup]

/-- C4 (amended): in `run_simulation` (`backtest.py`), at every rebalance
with nonempty previous weights the transaction cost computed against the
previous weights is applied by `capital *= (1 − cost)` before that day's
return accrues; in `run_backtest` (`backtest_engine.py`) the cost is only
accumulated into the `total_transaction_costs` reporting total
(`+= cost × portfolio_value`) and the portfolio value is never reduced by
it. -/
theorem C4_cost_application_amended (transaction_cost : ℚ)
    (available_tickers : List String) (rebalance_dates : List Int)
    (calcW targetW : Int → List (String × ℚ)) (dailyRet : String → ℚ)
    (date : Int) (i : Nat) (sim : SimState) (eng : EngineState)
    (hsim : rebalance_dates.any (fun rd => (date - rd).natAbs ≤ 2) = true)
    (heng : rebalance_dates.any (fun rd => (date - rd).natAbs < 3) = true)
    (hw : sim.current_weights ≠ [])
    (hat : available_tickers ≠ [])
    (htw : targetW date ≠ [])
    (hi : i ≠ 0) :
    (simStep transaction_cost available_tickers rebalance_dates calcW
        dailyRet date i sim).current_capital
      = sim.current_capital *
          (1 - calculate_transaction_costs sim.current_weights
            (simTargetWeights available_tickers (calcW date))
            transaction_cost) *
          (1 + portfolioReturn
            (simTargetWeights available_tickers (calcW date)) dailyRet) ∧
    (engineStep transaction_cost rebalance_dates targetW dailyRet date i
        eng).portfolio_value
      = eng.portfolio_value * (1 + portfolioReturn (targetW date) dailyRet) ∧
    (engineStep transaction_cost rebalance_dates targetW dailyRet date i
        eng).total_transaction_costs
      = eng.total_transaction_costs +
          calculate_transaction_costs eng.current_weights (targetW date)
            transaction_cost * eng.portfolio_value := by
  have hwib : sim.current_weights.isEmpty = false := by
    simpa [List.isEmpty_iff] using hw
  have htwib : (simTargetWeights available_tickers (calcW date)).isEmpty
      = false := by
    simpa [List.isEmpty_iff] using simTargetWeights_ne_nil hat (calcW date)
  have hengib : (targetW date).isEmpty = false := by
    simpa [List.isEmpty_iff] using htw
  refine ⟨?_, ?_, ?_⟩
  · simp only [simStep, hsim, Bool.true_or, if_true, hwib, Bool.false_eq_true,
      if_false, htwib, ne_eq, not_false_eq_true, hi, and_self]
  · simp only [engineStep, heng, Bool.true_or, if_true, hengib,
      Bool.false_eq_true, if_false, ne_eq, not_false_eq_true, hi, and_self]
  · simp only [engineStep, heng, Bool.true_or, if_true, hengib,
      Bool.false_eq_true, if_false, ne_eq, not_false_eq_true, hi, and_self]

/-- Witness for C4 (amended) at a concrete rebalance day. -/
theorem C4_witness :
    (([5] : List Int).any (fun rd => ((5 : Int) - rd).natAbs ≤ 2) = true ∧
      ([5] : List Int).any (fun rd => ((5 : Int) - rd).natAbs < 3) = true ∧
      ([("A", (1 : ℚ))] : List (String × ℚ)) ≠ [] ∧
      (["A"] : List String) ≠ [] ∧ (1 : Nat) ≠ 0) ∧
    (simStep (1/1000) ["A"] [5] (fun _ => [("A", (1 : ℚ))]) (fun _ => 0) 5 1
        ⟨100, [("A", 1)]⟩).current_capital
      = 100 *
          (1 - calculate_transaction_costs [("A", 1)]
            (simTargetWeights ["A"] [("A", (1 : ℚ))]) (1/1000)) *
          (1 + portfolioReturn (simTargetWeights ["A"] [("A", (1 : ℚ))])
            (fun _ => 0)) := by
  have h := C4_cost_application_amended (1/1000) ["A"] [5]
    (fun _ => [("A", (1 : ℚ))]) (fun _ => [("A", (1 : ℚ))]) (fun _ => 0) 5 1
    ⟨100, [("A", 1)]⟩ ⟨100, [("A", 1)], 0⟩ (by decide) (by decide)
    (List.cons_ne_nil _ _) (List.cons_ne_nil _ _) (List.cons_ne_nil _ _)
    (by decide)
  exact ⟨⟨by decide, by decide, List.cons_ne_nil _ _, List.cons_ne_nil _ _,
    by decide⟩, h.1⟩

end Biotech
